import Mathlib

/-!
Verification of the scan orchestration core of API-Sentinel-X
(src/API-Sentinel-X.py), shallowly embedded in Lean 4.

Modelling conventions used throughout:

* Python strings are `String`; the substring test `pat in s` is the
  executable `strContains s pat` below.
* A discovery strategy (`check_common_paths`, `check_js_files`, ...) is an
  oracle `Strat := String → Except Unit (List String)`: `.error ()` models a
  raised exception, `.ok l` a returned iterable of endpoint URLs.  The stub
  strategies returning `None` behave exactly like `.ok []` under the
  source's truthiness test `if found:`, so `None` is modelled as `.ok []`.
* A vulnerability test is an oracle `Test := String → Except Unit
  (Option String)`: `.error ()` a raised exception, `.ok none` a falsy
  ("no finding") result, `.ok (some d)` a truthy result with details `d`.
* Python's `set` of endpoints is modelled as a duplicate-free `List String`
  built by insertion (`setInsert` / `setUpdate`), which refines the set with
  a stable (insertion) iteration order.
* Division producing a `ZeroDivisionError` is modelled by `Option`:
  `print_progress` returns `none` exactly when the source raises.
* Machine floats: the percentage arithmetic is modelled over `ℚ`; float
  rounding is immaterial to the claims checked here.
-/

/-- Decides whether the character list `pat` is a prefix of `l`
(character-by-character comparison, as Python string matching does). -/
def startsWithChars : List Char → List Char → Bool
  | [], _ => true
  | _ :: _, [] => false
  | a :: as, b :: bs => a == b && startsWithChars as bs

/-- Decides whether the character list `pat` occurs contiguously inside `l`. -/
def subOccurs (pat : List Char) : List Char → Bool
  | [] => startsWithChars pat []
  | b :: bs => startsWithChars pat (b :: bs) || subOccurs pat bs

/-- Python's substring operator `pat in s` on strings. -/
def strContains (s pat : String) : Bool :=
  subOccurs pat.data s.data

namespace APISentinel

/-- One record appended by `process_finding` (source lines 181-200): a dict
literal with exactly the keys `endpoint`, `vulnerability`, `details`,
`color`, in that insertion order. -/
structure Finding where
  endpoint : String
  vulnerability : String
  details : String
  color : String
deriving Repr, DecidableEq

/-- The key/value pairs of the dict literal a `Finding` stands for, in the
source's insertion order; this is what `json.dump` serialises. -/
def Finding.pairs (f : Finding) : List (String × String) :=
  [("endpoint", f.endpoint), ("vulnerability", f.vulnerability),
   ("details", f.details), ("color", f.color)]

/-- colorama `Fore.RED` (attached to critical findings, line 185). -/
def foreRED : String := "\x1b[31m"

/-- colorama `Fore.YELLOW` (attached to high findings, line 192). -/
def foreYELLOW : String := "\x1b[33m"

/-- colorama `Fore.BLUE` (attached to medium findings, line 199). -/
def foreBLUE : String := "\x1b[34m"

/-- The aggregator `self.findings`: a dict of five severity-bucket lists
created in `__init__` (source lines 45-51), keys in insertion order
`critical, high, medium, low, info`. -/
structure Findings where
  critical : List Finding
  high : List Finding
  medium : List Finding
  low : List Finding
  info : List Finding
deriving Repr, DecidableEq

/-- The empty aggregator built by `__init__`. -/
def initFindings : Findings :=
  { critical := [], high := [], medium := [], low := [], info := [] }

/-- Total number of findings held across all five buckets. -/
def Findings.totalCount (fs : Findings) : Nat :=
  fs.critical.length + fs.high.length + fs.medium.length
    + fs.low.length + fs.info.length

/-- `APISentinel.process_finding` (source lines 179-200): classifies one
`(endpoint, vuln_name, details)` triple and appends it to exactly one
severity bucket.  `if "SQLi" in vuln_name` → critical, `elif "BOLA" in
vuln_name` → high, `else` → medium. -/
def process_finding (fs : Findings) (endpoint vuln_name details : String) :
    Findings :=
  if strContains vuln_name "SQLi" then
    { fs with critical :=
        fs.critical ++ [⟨endpoint, vuln_name, details, foreRED⟩] }
  else if strContains vuln_name "BOLA" then
    { fs with high :=
        fs.high ++ [⟨endpoint, vuln_name, details, foreYELLOW⟩] }
  else
    { fs with medium :=
        fs.medium ++ [⟨endpoint, vuln_name, details, foreBLUE⟩] }

/-- C1: severity classification in `process_finding` is deterministic
first-match precedence on the test name: a name containing `"SQLi"` goes to
the critical bucket; otherwise a name containing `"BOLA"` goes to the high
bucket; every other name — in particular `"BFLA"` and `"Mass Assignment"` —
goes to the medium bucket; the finding is appended to exactly one bucket
(the other four are unchanged) and is never dropped (the total count always
grows by one). -/
theorem process_finding_classification (fs : Findings)
    (endpoint vuln_name details : String) :
    (strContains vuln_name "SQLi" = true →
      process_finding fs endpoint vuln_name details =
        { fs with critical :=
            fs.critical ++ [⟨endpoint, vuln_name, details, foreRED⟩] }) ∧
    (strContains vuln_name "SQLi" = false →
      strContains vuln_name "BOLA" = true →
      process_finding fs endpoint vuln_name details =
        { fs with high :=
            fs.high ++ [⟨endpoint, vuln_name, details, foreYELLOW⟩] }) ∧
    (strContains vuln_name "SQLi" = false →
      strContains vuln_name "BOLA" = false →
      process_finding fs endpoint vuln_name details =
        { fs with medium :=
            fs.medium ++ [⟨endpoint, vuln_name, details, foreBLUE⟩] }) ∧
    (process_finding fs endpoint "BFLA" details =
      { fs with medium :=
          fs.medium ++ [⟨endpoint, "BFLA", details, foreBLUE⟩] }) ∧
    (process_finding fs endpoint "Mass Assignment" details =
      { fs with medium :=
          fs.medium ++ [⟨endpoint, "Mass Assignment", details, foreBLUE⟩] }) ∧
    (process_finding fs endpoint vuln_name details).totalCount =
      fs.totalCount + 1 := by
  refine ⟨?_, ?_, ?_, ?_, ?_, ?_⟩
  · intro h; simp [process_finding, h]
  · intro h1 h2; simp [process_finding, h1, h2]
  · intro h1 h2; simp [process_finding, h1, h2]
  · have h1 : strContains "BFLA" "SQLi" = false := by decide
    have h2 : strContains "BFLA" "BOLA" = false := by decide
    simp [process_finding, h1, h2]
  · have h1 : strContains "Mass Assignment" "SQLi" = false := by decide
    have h2 : strContains "Mass Assignment" "BOLA" = false := by decide
    simp [process_finding, h1, h2]
  · unfold process_finding
    by_cases h1 : strContains vuln_name "SQLi"
    · simp [h1, Findings.totalCount]; omega
    · by_cases h2 : strContains vuln_name "BOLA" <;>
        simp [h1, h2, Findings.totalCount] <;> omega

/-- Concrete instantiation of `process_finding_classification`: a finding
named `"SQLi (blind)"` lands in the critical bucket of the fresh aggregator
and the total count becomes 1. -/
theorem process_finding_classification_witness :
    process_finding initFindings "http://t/api" "SQLi (blind)" "d" =
      { initFindings with critical :=
          [⟨"http://t/api", "SQLi (blind)", "d", foreRED⟩] } ∧
    (process_finding initFindings "http://t/api" "SQLi (blind)" "d").totalCount
      = initFindings.totalCount + 1 := by
  have h := process_finding_classification initFindings
    "http://t/api" "SQLi (blind)" "d"
  exact ⟨h.1 (by decide), h.2.2.2.2.2⟩

/-- A discovery strategy, as registered in `discover_endpoints`
(source lines 73-78): may raise (`.error ()`) or return a list of URLs. -/
def Strat : Type := String → Except Unit (List String)

/-- Python `set.add`: insert one string, keeping the list duplicate-free. -/
def setInsert (s : List String) (x : String) : List String :=
  if x ∈ s then s else s ++ [x]

/-- Python `set.update(found)`: insert every element of `found` in order. -/
def setUpdate (s : List String) (found : List String) : List String :=
  found.foldl setInsert s

/-- One iteration of the strategy loop in `discover_endpoints` (source lines
81-87): call the strategy inside `try`, swallow any exception, and merge a
truthy (non-empty) result into the endpoint set. -/
def discoverStep (target : String) (endpoints : List String) (method : Strat) :
    List String :=
  match method target with
  | .error _ => endpoints
  | .ok found => if found ≠ [] then setUpdate endpoints found else endpoints

/-- `APISentinel.discover_endpoints` (source lines 72-89): fold the strategy
list over an initially empty endpoint set. -/
def discover_endpoints (methods : List Strat) (target : String) :
    List String :=
  methods.foldl (discoverStep target) []

theorem discoverStep_error (target : String) (acc : List String) (m : Strat)
    (e : Unit) (h : m target = .error e) : discoverStep target acc m = acc := by
  unfold discoverStep; rw [h]

theorem discoverStep_ok (target : String) (acc : List String) (m : Strat)
    (found : List String) (h : m target = .ok found) :
    discoverStep target acc m =
      if found ≠ [] then setUpdate acc found else acc := by
  unfold discoverStep; rw [h]

theorem mem_setInsert (s : List String) (x y : String) :
    y ∈ setInsert s x ↔ y ∈ s ∨ y = x := by
  unfold setInsert
  by_cases h : x ∈ s
  · simp only [if_pos h]
    constructor
    · exact Or.inl
    · rintro (hy | rfl) <;> [exact hy; exact h]
  · simp [if_neg h]

theorem setInsert_eq_self (s : List String) (x : String) (h : x ∈ s) :
    setInsert s x = s := by
  simp [setInsert, h]

theorem mem_setUpdate (s found : List String) (y : String) :
    y ∈ setUpdate s found ↔ y ∈ s ∨ y ∈ found := by
  induction found generalizing s with
  | nil => simp [setUpdate]
  | cons a as ih =>
    simp only [setUpdate, List.foldl_cons] at *
    rw [ih (setInsert s a), mem_setInsert]
    simp only [List.mem_cons]
    tauto

theorem setUpdate_eq_self (s found : List String)
    (h : ∀ x ∈ found, x ∈ s) : setUpdate s found = s := by
  induction found generalizing s with
  | nil => rfl
  | cons a as ih =>
    have ha : a ∈ s := h a (by simp)
    simp only [setUpdate, List.foldl_cons, setInsert_eq_self s a ha]
    exact ih s fun x hx => h x (by simp [hx])

theorem nodup_setInsert (s : List String) (x : String) (h : s.Nodup) :
    (setInsert s x).Nodup := by
  unfold setInsert
  by_cases hx : x ∈ s
  · simpa [hx]
  · simp [hx, List.nodup_append, h]

theorem nodup_setUpdate (s found : List String) (h : s.Nodup) :
    (setUpdate s found).Nodup := by
  induction found generalizing s with
  | nil => exact h
  | cons a as ih =>
    exact ih (setInsert s a) (nodup_setInsert s a h)

theorem mem_discover_foldl (methods : List Strat) (target : String)
    (acc : List String) (y : String) :
    y ∈ methods.foldl (discoverStep target) acc ↔
      y ∈ acc ∨ ∃ m ∈ methods, ∃ l, m target = .ok l ∧ y ∈ l := by
  induction methods generalizing acc with
  | nil => simp
  | cons m ms ih =>
    simp only [List.foldl_cons]
    rw [ih]
    have hstep : y ∈ discoverStep target acc m ↔
        y ∈ acc ∨ ∃ l, m target = .ok l ∧ y ∈ l := by
      cases hm : m target with
      | error e => rw [discoverStep_error target acc m e hm]; simp [hm]
      | ok found =>
        rw [discoverStep_ok target acc m found hm]
        by_cases hf : found = []
        · subst hf; simp [hm]
        · rw [if_pos hf, mem_setUpdate]
          simp [hm]
    rw [hstep]
    constructor
    · rintro ((h | h) | h)
      · exact Or.inl h
      · rcases h with ⟨l, hl, hy⟩
        exact Or.inr ⟨m, by simp, l, hl, hy⟩
      · rcases h with ⟨m', hm', hrest⟩
        exact Or.inr ⟨m', by simp [hm'], hrest⟩
    · rintro (h | ⟨m', hm', l, hl, hy⟩)
      · exact Or.inl (Or.inl h)
      · rcases List.mem_cons.mp hm' with rfl | hm'
        · exact Or.inl (Or.inr ⟨l, hl, hy⟩)
        · exact Or.inr ⟨m', hm', l, hl, hy⟩

theorem nodup_discover_foldl (methods : List Strat) (target : String)
    (acc : List String) (h : acc.Nodup) :
    (methods.foldl (discoverStep target) acc).Nodup := by
  induction methods generalizing acc with
  | nil => exact h
  | cons m ms ih =>
    refine ih (discoverStep target acc m) ?_
    cases hm : m target with
    | error e => rw [discoverStep_error target acc m e hm]; exact h
    | ok found =>
      rw [discoverStep_ok target acc m found hm]
      by_cases hf : found = []
      · simpa [hf]
      · rw [if_pos hf]; exact nodup_setUpdate acc found h

theorem discover_foldl_fixed (methods : List Strat) (target : String)
    (acc : List String)
    (h : ∀ m ∈ methods, ∀ l, m target = .ok l → ∀ x ∈ l, x ∈ acc) :
    methods.foldl (discoverStep target) acc = acc := by
  induction methods generalizing acc with
  | nil => rfl
  | cons m ms ih =>
    have hstep : discoverStep target acc m = acc := by
      cases hm : m target with
      | error e => exact discoverStep_error target acc m e hm
      | ok found =>
        rw [discoverStep_ok target acc m found hm]
        by_cases hf : found = []
        · simp [hf]
        · rw [if_pos hf]
          exact setUpdate_eq_self acc found
            (fun x hx => h m (by simp) found hm x hx)
    simp only [List.foldl_cons, hstep]
    exact ih acc fun m' hm' l hl x hx => h m' (by simp [hm']) l hl x hx

/-- C3: per-strategy failure isolation in `discover_endpoints`: a strategy
that always raises contributes nothing and does not abort the remaining
strategies (removing it from the registry leaves the result unchanged); the
result contains exactly the union of all strategies' successful outputs; and
if every strategy raises or returns an empty/falsy result, the result is the
empty set, not an error. -/
theorem discover_endpoints_isolation (target : String) :
    (∀ (ms1 ms2 : List Strat) (failing : Strat),
      (∀ u, failing u = .error ()) →
      discover_endpoints (ms1 ++ failing :: ms2) target =
        discover_endpoints (ms1 ++ ms2) target) ∧
    (∀ (methods : List Strat) (y : String),
      y ∈ discover_endpoints methods target ↔
        ∃ m ∈ methods, ∃ l, m target = .ok l ∧ y ∈ l) ∧
    (∀ methods : List Strat,
      (∀ m ∈ methods, m target = .error () ∨ m target = .ok []) →
      discover_endpoints methods target = []) := by
  refine ⟨?_, ?_, ?_⟩
  · intro ms1 ms2 failing hfail
    unfold discover_endpoints
    rw [List.foldl_append, List.foldl_append, List.foldl_cons]
    rw [discoverStep_error target (ms1.foldl (discoverStep target) [])
      failing () (hfail target)]
  · intro methods y
    unfold discover_endpoints
    rw [mem_discover_foldl]
    simp
  · intro methods h
    unfold discover_endpoints
    exact discover_foldl_fixed methods target []
      (by
        intro m hm l hl x hx
        rcases h m hm with hbad | hempty
        · rw [hbad] at hl; cases hl
        · rw [hempty] at hl
          cases hl; cases hx)

/-- Concrete instantiation of `discover_endpoints_isolation`: with one
always-raising strategy between two successful ones, discovery still returns
both successful results; with only raising/empty strategies it returns the
empty set. -/
theorem discover_endpoints_isolation_witness :
    discover_endpoints
        [fun _ => .ok ["http://t/api"],
         fun _ => .error (),
         fun _ => .ok ["http://t/v1"]] "http://t" =
      discover_endpoints
        [fun _ => .ok ["http://t/api"], fun _ => .ok ["http://t/v1"]]
        "http://t" ∧
    ("http://t/v1" ∈ discover_endpoints
        [fun _ => .ok ["http://t/api"],
         fun _ => .error (),
         fun _ => .ok ["http://t/v1"]] "http://t") ∧
    discover_endpoints [fun _ => .error (), fun _ => .ok []] "http://t"
      = [] := by
  have h := discover_endpoints_isolation "http://t"
  refine ⟨?_, ?_, ?_⟩
  · exact h.1 [fun _ => .ok ["http://t/api"]] [fun _ => .ok ["http://t/v1"]]
      (fun _ => .error ()) (fun _ => rfl)
  · exact (h.2.1 _ _).mpr
      ⟨fun _ => .ok ["http://t/v1"], by simp, ["http://t/v1"], rfl, by simp⟩
  · exact h.2.2 _ (by
      intro m hm
      rcases List.mem_cons.mp hm with rfl | hm
      · exact Or.inl rfl
      · rcases List.mem_cons.mp hm with rfl | hm
        · exact Or.inr rfl
        · cases hm)

/-- C6: the endpoint set returned by `discover_endpoints` contains each
string at most once (no duplicates, even when several strategies return the
same URL), and running the whole strategy list twice and unioning yields
exactly the same set as running it once. -/
theorem discover_endpoints_nodup_idempotent (methods : List Strat)
    (target : String) :
    (discover_endpoints methods target).Nodup ∧
    discover_endpoints (methods ++ methods) target =
      discover_endpoints methods target := by
  constructor
  · exact nodup_discover_foldl methods target [] (by simp)
  · unfold discover_endpoints
    rw [List.foldl_append]
    exact discover_foldl_fixed methods target
      (methods.foldl (discoverStep target) [])
      (fun m hm l hl x hx =>
        (mem_discover_foldl methods target [] x).mpr
          (Or.inr ⟨m, hm, l, hl, hx⟩))

/-- A vulnerability test, as registered in `scan_owasp_api` (source lines
119-124): may raise (`.error ()`), return a falsy "no finding" result
(`.ok none` — the stubs return `None`), or return truthy details
(`.ok (some d)`). -/
def Test : Type := String → Except Unit (Option String)

/-- The fixed, ordered test registry of `scan_owasp_api` (source lines
119-124), parametrised by the four bound test methods. -/
def sentinelTests (bola bfla massAssign sqli : Test) : List (String × Test) :=
  [("BOLA", bola), ("BFLA", bfla), ("Mass Assignment", massAssign),
   ("SQLi", sqli)]

/-- One iteration of the test loop in `scan_owasp_api` (source lines
127-133): call the test inside `try`, swallow any exception, and append a
`(name, result)` entry only for a truthy result. -/
def scanStep (endpoint : String) (acc : List (String × String))
    (nt : String × Test) : List (String × String) :=
  match nt.2 endpoint with
  | .error _ => acc
  | .ok none => acc
  | .ok (some d) => acc ++ [(nt.1, d)]

/-- `APISentinel.scan_owasp_api` (source lines 118-135): fold the registered
test list over an initially empty result list. -/
def scan_owasp_api (tests : List (String × Test)) (endpoint : String) :
    List (String × String) :=
  tests.foldl (scanStep endpoint) []

theorem scan_foldl_append (tests : List (String × Test)) (endpoint : String)
    (acc : List (String × String)) :
    tests.foldl (scanStep endpoint) acc =
      acc ++ tests.foldl (scanStep endpoint) [] := by
  induction tests generalizing acc with
  | nil => simp
  | cons nt ts ih =>
    simp only [List.foldl_cons]
    rw [ih (scanStep endpoint acc nt), ih (scanStep endpoint [] nt)]
    unfold scanStep
    cases nt.2 endpoint with
    | error e => simp
    | ok r => cases r with
      | none => simp
      | some d => simp

/-- C5: `scan_owasp_api` processes the registered tests in registration
order — the output equals the `filterMap` of that order, so only truthy
results contribute a `(testName, details)` entry and output order follows
registration order, not severity; a raising test is skipped silently without
aborting the remaining tests (removing it from the registry leaves the
result unchanged); and the fixed registry is named, in order, BOLA, BFLA,
Mass Assignment, SQLi. -/
theorem scan_owasp_api_order_isolation (endpoint : String) :
    (∀ tests : List (String × Test),
      scan_owasp_api tests endpoint =
        tests.filterMap (fun nt =>
          match nt.2 endpoint with
          | .ok (some d) => some (nt.1, d)
          | _ => none)) ∧
    (∀ (ts1 ts2 : List (String × Test)) (nm : String) (failing : Test),
      (∀ u, failing u = .error ()) →
      scan_owasp_api (ts1 ++ (nm, failing) :: ts2) endpoint =
        scan_owasp_api (ts1 ++ ts2) endpoint) ∧
    (∀ bola bfla massAssign sqli : Test,
      (sentinelTests bola bfla massAssign sqli).map Prod.fst =
        ["BOLA", "BFLA", "Mass Assignment", "SQLi"]) := by
  refine ⟨?_, ?_, ?_⟩
  · intro tests
    induction tests with
    | nil => rfl
    | cons nt ts ih =>
      unfold scan_owasp_api at *
      rw [List.foldl_cons, scan_foldl_append, ih, List.filterMap_cons]
      unfold scanStep
      cases nt.2 endpoint with
      | error e => simp
      | ok r => cases r with
        | none => simp
        | some d => simp
  · intro ts1 ts2 nm failing hfail
    unfold scan_owasp_api
    rw [List.foldl_append, List.foldl_append, List.foldl_cons]
    have : scanStep endpoint (ts1.foldl (scanStep endpoint) []) (nm, failing)
        = ts1.foldl (scanStep endpoint) [] := by
      unfold scanStep
      rw [show (nm, failing).2 endpoint = Except.error () from hfail endpoint]
    rw [this]
  · intro bola bfla massAssign sqli
    rfl

/-- Concrete instantiation of `scan_owasp_api_order_isolation`: with a
raising BOLA test, a no-finding BFLA test, and truthy Mass Assignment and
SQLi tests, the scan returns exactly the two truthy entries in registration
order, unaffected by the raising test. -/
theorem scan_owasp_api_order_isolation_witness :
    scan_owasp_api
        (sentinelTests (fun _ => .error ()) (fun _ => .ok none)
          (fun _ => .ok (some "ma")) (fun _ => .ok (some "sq")))
        "http://t/api" =
      [("Mass Assignment", "ma"), ("SQLi", "sq")] ∧
    scan_owasp_api
        ([("BOLA", fun _ => .error ())] ++
          [("SQLi", fun _ => .ok (some "sq"))]) "http://t/api" =
      scan_owasp_api [("SQLi", fun _ => .ok (some "sq"))] "http://t/api" := by
  have h := scan_owasp_api_order_isolation "http://t/api"
  constructor
  · rw [h.1 (sentinelTests (fun _ => .error ()) (fun _ => .ok none)
      (fun _ => .ok (some "ma")) (fun _ => .ok (some "sq")))]
    rfl
  · exact h.2.1 [] [("SQLi", fun _ => .ok (some "sq"))] "BOLA"
      (fun _ => .error ()) (fun _ => rfl)

/-- `APISentinel.print_progress` (source lines 64-70): computes
`(completed_tests / total_tests) * 100` with an unguarded division.  The
returned value is the displayed percentage; `none` models the
`ZeroDivisionError` Python raises when `total_tests == 0` (the source has no
guard, so the division itself fails there). -/
def print_progress (completed_tests total_tests : Nat) : Option ℚ :=
  if total_tests = 0 then none
  else some ((completed_tests : ℚ) / (total_tests : ℚ) * 100)

/-- C7 (refuting evaluation): `print_progress` does not handle
`totalUnits == 0` — invoked with zero total units it raises a division
error (modelled by `none`) instead of yielding a defined percentage. -/
theorem print_progress_zero_total_crashes :
    print_progress 0 0 = none := rfl

/-- The shape of one written report document. -/
abbrev Report : Type := List (String × List (List (String × String)))

/-- The JSON document `generate_report` serialises (source lines 153-158):
`json.dump(self.findings, ...)` writes the five buckets, keys in the dict's
insertion order, each record with its full key set. -/
def reportDoc (fs : Findings) : Report :=
  [("critical", fs.critical.map Finding.pairs),
   ("high", fs.high.map Finding.pairs),
   ("medium", fs.medium.map Finding.pairs),
   ("low", fs.low.map Finding.pairs),
   ("info", fs.info.map Finding.pairs)]

/-- `APISentinel.generate_report` (source lines 153-158) as an event on an
emission log: each invocation writes one report of the aggregator's current
state. -/
def generate_report (fs : Findings) (emitted : List Report) : List Report :=
  emitted ++ [reportDoc fs]

/-- A sequence of `process_finding` calls applied to an aggregator, in
order: the findings reachable during a run. -/
def recordAll (fs : Findings) (calls : List (String × String × String)) :
    Findings :=
  calls.foldl (fun acc c => process_finding acc c.1 c.2.1 c.2.2) fs

/-- C8 fails as stated: the record serialised for a finding carries the key
list `endpoint, vulnerability, details, color` — an extra `color` key — and
is therefore not of the claimed shape `{endpoint, vulnerability, details}`. -/
theorem report_record_shape_counterexample :
    ((process_finding initFindings "http://t/api" "SQLi" "d").critical.map
        (fun f => f.pairs.map Prod.fst)) =
      [["endpoint", "vulnerability", "details", "color"]] ∧
    (["endpoint", "vulnerability", "details", "color"] ≠
      ["endpoint", "vulnerability", "details"]) := by
  constructor
  · rfl
  · decide

theorem process_finding_low_info (fs : Findings) (e n d : String) :
    (process_finding fs e n d).low = fs.low ∧
    (process_finding fs e n d).info = fs.info := by
  unfold process_finding
  by_cases h1 : strContains n "SQLi"
  · simp [h1]
  · by_cases h2 : strContains n "BOLA" <;> simp [h1, h2]

theorem recordAll_low_info (calls : List (String × String × String))
    (fs : Findings) :
    (recordAll fs calls).low = fs.low ∧
    (recordAll fs calls).info = fs.info := by
  induction calls generalizing fs with
  | nil => exact ⟨rfl, rfl⟩
  | cons c cs ih =>
    unfold recordAll at *
    rw [List.foldl_cons]
    have h := process_finding_low_info fs c.1 c.2.1 c.2.2
    rcases ih (process_finding fs c.1 c.2.1 c.2.2) with ⟨hl, hi⟩
    exact ⟨hl.trans h.1, hi.trans h.2⟩

/-- C8 as amended: every report emitted for an aggregator reachable from
`__init__` through `process_finding` calls has exactly the top-level keys
`critical, high, medium, low, info` in that order; every record in every
bucket serialises the four keys `endpoint, vulnerability, details, color`
in that order (one `color` key more than the claim stated); and the `low`
and `info` buckets are empty in every such report. -/
theorem report_schema_amended (calls : List (String × String × String)) :
    (reportDoc (recordAll initFindings calls)).map Prod.fst =
      ["critical", "high", "medium", "low", "info"] ∧
    (∀ sec ∈ reportDoc (recordAll initFindings calls), ∀ rec ∈ sec.2,
      rec.map Prod.fst = ["endpoint", "vulnerability", "details", "color"]) ∧
    (recordAll initFindings calls).low = [] ∧
    (recordAll initFindings calls).info = [] := by
  refine ⟨rfl, ?_, ?_, ?_⟩
  · intro sec hsec rec hrec
    have : ∃ bucket : List Finding, sec.2 = bucket.map Finding.pairs := by
      unfold reportDoc at hsec
      rcases List.mem_cons.mp hsec with rfl | h
      · exact ⟨_, rfl⟩
      rcases List.mem_cons.mp h with rfl | h
      · exact ⟨_, rfl⟩
      rcases List.mem_cons.mp h with rfl | h
      · exact ⟨_, rfl⟩
      rcases List.mem_cons.mp h with rfl | h
      · exact ⟨_, rfl⟩
      rcases List.mem_cons.mp h with rfl | h
      · exact ⟨_, rfl⟩
      cases h
    rcases this with ⟨bucket, hb⟩
    rw [hb] at hrec
    rcases List.mem_map.mp hrec with ⟨f, _, rfl⟩
    rfl
  · exact (recordAll_low_info calls initFindings).1
  · exact (recordAll_low_info calls initFindings).2

/-- Concrete instantiation of `report_schema_amended`: after recording one
SQLi and one BOLA finding, the report's key list is the five severity keys
and the low and info buckets are empty. -/
theorem report_schema_amended_witness :
    (reportDoc (recordAll initFindings
        [("http://t/api", "SQLi", "d1"), ("http://t/v1", "BOLA", "d2")])).map
        Prod.fst = ["critical", "high", "medium", "low", "info"] ∧
    (recordAll initFindings
        [("http://t/api", "SQLi", "d1"), ("http://t/v1", "BOLA", "d2")]).low
      = [] ∧
    (recordAll initFindings
        [("http://t/api", "SQLi", "d1"), ("http://t/v1", "BOLA", "d2")]).info
      = [] := by
  have h := report_schema_amended
    [("http://t/api", "SQLi", "d1"), ("http://t/v1", "BOLA", "d2")]
  exact ⟨h.1, h.2.2.1, h.2.2.2⟩

/-- Scanner state threaded through `run`: the progress counters set up in
`__init__` (source lines 43-44) and the findings aggregator. -/
structure ScanState where
  total_tests : Nat
  completed_tests : Nat
  findings : Findings
deriving Repr, DecidableEq

/-- The inner endpoint loop of `run` (source lines 167-170): scan one
endpoint and record every `(vuln_name, details)` result through
`process_finding`. -/
def scanAndRecord (tests : List (String × Test)) (fs : Findings)
    (endpoint : String) : Findings :=
  (scan_owasp_api tests endpoint).foldl
    (fun acc nd => process_finding acc endpoint nd.1 nd.2) fs

/-- The body of the per-target `try` block in `run` (source lines 166-173):
discover endpoints, scan each, record the findings, then advance
`completed_tests` by one.  The trailing `print_progress()` call only
displays state; inside the loop `total_tests = len(targets) * 5 ≥ 5`, so its
division succeeds and it is omitted from the state transition. -/
def processTarget (strategies : List Strat) (tests : List (String × Test))
    (st : ScanState) (target : String) : ScanState :=
  { st with
    findings :=
      (discover_endpoints strategies target).foldl (scanAndRecord tests)
        st.findings,
    completed_tests := st.completed_tests + 1 }

/-- One iteration of the target loop of `run` (source lines 164-175).  An
uncaught target-level exception — injected by the oracle `fault`, striking
at the start of the target's processing — is swallowed by the bare
`except: continue` (source lines 174-175) before `completed_tests` is
advanced; otherwise the `try` body runs to completion. -/
def runStep (strategies : List Strat) (tests : List (String × Test))
    (fault : String → Bool) (st : ScanState) (target : String) : ScanState :=
  if fault target then st else processTarget strategies tests st target

/-- The state at entry to the target loop: `run` first sets
`self.total_tests = len(self.targets) * 5` (source line 161), the
"approximate test count", on the fresh counters and aggregator from
`__init__`. -/
def initState (targets : List String) : ScanState :=
  { total_tests := targets.length * 5, completed_tests := 0,
    findings := initFindings }

/-- `APISentinel.run` (source lines 160-177) on an uninterrupted run.  The
`threads` argument mirrors the constructor's thread count handed to
`ThreadPoolExecutor(max_workers=self.threads)` (source line 163); the
executor never receives any submitted work, every target is processed
inline in the loop, so `threads` does not influence the transition.  After
the loop, `generate_report` (source line 177) emits the report once. -/
def run (strategies : List Strat) (tests : List (String × Test))
    (fault : String → Bool) (targets : List String) (threads : Nat) :
    ScanState × List Report :=
  let final := targets.foldl (runStep strategies tests fault)
    (initState targets)
  (final, generate_report final.findings [])

/-- `run` under a possible external interrupt.  An interrupt delivered
inside the per-target `try` is swallowed by the bare `except: continue`
(that case is the `fault` oracle), so an interrupt that escapes `run` fires
at a loop boundary: `some k` with `k < targets.length` means the
`KeyboardInterrupt` propagates out of `run` after `k` completed loop
iterations, with the scanner state at that moment; otherwise `run`
completes normally and emits the report. -/
def runModel (strategies : List Strat) (tests : List (String × Test))
    (fault : String → Bool) (targets : List String) (threads : Nat) :
    Option Nat → Except ScanState (ScanState × List Report)
  | some k =>
    if k < targets.length then
      .error ((targets.take k).foldl (runStep strategies tests fault)
        (initState targets))
    else .ok (run strategies tests fault targets threads)
  | none => .ok (run strategies tests fault targets threads)

/-- The `__main__` block (source lines 210-215): `scanner.run()` inside
`try`; a `KeyboardInterrupt` escaping `run` is caught, the handler calls
`scanner.generate_report()` on the current state, and the process falls off
the end of the script — exit code 0 either way.  Returns the final scanner
state, the emission log, and whether the process exited as a failure. -/
def mainModel (strategies : List Strat) (tests : List (String × Test))
    (fault : String → Bool) (targets : List String) (threads : Nat)
    (interruptAfter : Option Nat) : ScanState × List Report × Bool :=
  match runModel strategies tests fault targets threads interruptAfter with
  | .ok (st, log) => (st, log, false)
  | .error st => (st, generate_report st.findings [], false)

/-- Fixture: a discovery strategy returning the target itself as the sole
endpoint. -/
def stratSelf : Strat := fun t => .ok [t]

/-- Fixture: a vulnerability test returning the falsy "no finding". -/
def testNone : Test := fun _ => .ok none

/-- Fixture: a vulnerability test returning truthy details. -/
def testInj : Test := fun _ => .ok (some "inj")

/-- Fixture: the registry with only the SQLi test firing. -/
def fixtureTests : List (String × Test) :=
  sentinelTests testNone testNone testNone testInj

/-- Fixture: no target-level fault. -/
def noFault : String → Bool := fun _ => false

/-- Fixture: a target-level fault striking exactly the target `"t1"`. -/
def faultT1 : String → Bool := fun t => t == "t1"

/-- C4 fails as stated: on a two-target run whose first target raises a
target-level error, the completed counter finishes at 1, not 2 — the failed
target is NOT counted as completed, contradicting the claim that the
counter is advanced for it (the increment at source line 172 sits inside
the `try`, so the bare `except` skips it). -/
theorem run_fault_counter_counterexample :
    (run [stratSelf] fixtureTests faultT1 ["t1", "t2"] 5).1.completed_tests
      = 1 ∧
    (run [stratSelf] fixtureTests faultT1 ["t1", "t2"] 5).1.completed_tests
      ≠ 2 := by
  constructor
  · rfl
  · decide

/-- C4 as amended: a target whose processing raises an uncaught error is
recovered at the loop boundary — the error is swallowed, the scanner state
is left entirely unchanged (so the target contributes zero findings and,
contrary to the claim as stated, the completed counter is NOT advanced for
it), and processing continues with the remaining targets exactly as if the
failed target were absent. -/
theorem run_fault_recovery (strategies : List Strat)
    (tests : List (String × Test)) (fault : String → Bool) (t : String)
    (h : fault t = true) :
    (∀ st : ScanState, runStep strategies tests fault st t = st) ∧
    (∀ (st : ScanState) (rest : List String),
      (t :: rest).foldl (runStep strategies tests fault) st =
        rest.foldl (runStep strategies tests fault) st) := by
  have hstep : ∀ st : ScanState, runStep strategies tests fault st t = st := by
    intro st
    unfold runStep
    rw [h]
    rfl
  exact ⟨hstep, fun st rest => by rw [List.foldl_cons, hstep st]⟩

/-- Concrete instantiation of `run_fault_recovery` at the faulting fixture:
the faulting target leaves the initial state untouched and folding over it
is folding over the remaining targets. -/
theorem run_fault_recovery_witness :
    runStep [stratSelf] fixtureTests faultT1 (initState ["t1", "t2"]) "t1" =
      initState ["t1", "t2"] ∧
    (["t1", "t2"].foldl (runStep [stratSelf] fixtureTests faultT1)
        (initState ["t1", "t2"])) =
      (["t2"].foldl (runStep [stratSelf] fixtureTests faultT1)
        (initState ["t1", "t2"])) := by
  have h := run_fault_recovery [stratSelf] fixtureTests faultT1 "t1" (by decide)
  exact ⟨h.1 (initState ["t1", "t2"]),
    h.2 (initState ["t1", "t2"]) ["t2"]⟩

theorem runStep_total (strategies : List Strat)
    (tests : List (String × Test)) (fault : String → Bool) (st : ScanState)
    (t : String) :
    (runStep strategies tests fault st t).total_tests = st.total_tests := by
  unfold runStep processTarget
  by_cases h : fault t <;> simp [h]

theorem runStep_completed_le (strategies : List Strat)
    (tests : List (String × Test)) (fault : String → Bool) (st : ScanState)
    (t : String) :
    (runStep strategies tests fault st t).completed_tests ≤
      st.completed_tests + 1 := by
  unfold runStep processTarget
  by_cases h : fault t <;> simp [h]

theorem runStep_completed_nofault (strategies : List Strat)
    (tests : List (String × Test)) (fault : String → Bool) (st : ScanState)
    (t : String) (h : fault t = false) :
    (runStep strategies tests fault st t).completed_tests =
      st.completed_tests + 1 := by
  unfold runStep processTarget
  simp [h]

theorem total_foldl (strategies : List Strat) (tests : List (String × Test))
    (fault : String → Bool) (targets : List String) (st : ScanState) :
    (targets.foldl (runStep strategies tests fault) st).total_tests =
      st.total_tests := by
  induction targets generalizing st with
  | nil => rfl
  | cons t ts ih =>
    rw [List.foldl_cons, ih, runStep_total]

theorem completed_foldl_le (strategies : List Strat)
    (tests : List (String × Test)) (fault : String → Bool)
    (targets : List String) (st : ScanState) :
    (targets.foldl (runStep strategies tests fault) st).completed_tests ≤
      st.completed_tests + targets.length := by
  induction targets generalizing st with
  | nil => simp
  | cons t ts ih =>
    rw [List.foldl_cons]
    have h1 := ih (runStep strategies tests fault st t)
    have h2 := runStep_completed_le strategies tests fault st t
    simp only [List.length_cons]
    omega

theorem completed_foldl_nofault (strategies : List Strat)
    (tests : List (String × Test)) (fault : String → Bool)
    (targets : List String) (st : ScanState)
    (h : ∀ t ∈ targets, fault t = false) :
    (targets.foldl (runStep strategies tests fault) st).completed_tests =
      st.completed_tests + targets.length := by
  induction targets generalizing st with
  | nil => simp
  | cons t ts ih =>
    rw [List.foldl_cons]
    have h1 := ih (runStep strategies tests fault st t)
      (fun u hu => h u (by simp [hu]))
    rw [h1, runStep_completed_nofault strategies tests fault st t
      (h t (by simp))]
    simp only [List.length_cons]
    omega

/-- C10: `run` sets the total work-unit count to `5 · n` for `n` targets
(source line 161) while the completed counter advances by exactly one per
successfully processed target, so `completed_tests ≤ total_tests` holds for
every run (any fault pattern), and when all `n ≥ 1` targets complete
normally the displayed progress percentage is `n / (5·n) · 100 = 20` —
not 100. -/
theorem run_progress_accounting (strategies : List Strat)
    (tests : List (String × Test)) (fault : String → Bool)
    (targets : List String) (threads : Nat) :
    (run strategies tests fault targets threads).1.total_tests =
      5 * targets.length ∧
    (run strategies tests fault targets threads).1.completed_tests ≤
      (run strategies tests fault targets threads).1.total_tests ∧
    ((∀ t ∈ targets, fault t = false) →
      (run strategies tests fault targets threads).1.completed_tests =
        targets.length) ∧
    (1 ≤ targets.length → (∀ t ∈ targets, fault t = false) →
      print_progress
        (run strategies tests fault targets threads).1.completed_tests
        (run strategies tests fault targets threads).1.total_tests =
          some 20) := by
  have htot : (run strategies tests fault targets threads).1.total_tests =
      targets.length * 5 := by
    unfold run
    exact total_foldl strategies tests fault targets (initState targets)
  have hle : (run strategies tests fault targets threads).1.completed_tests ≤
      targets.length := by
    have := completed_foldl_le strategies tests fault targets
      (initState targets)
    unfold run
    simpa [initState] using this
  have hnof : (∀ t ∈ targets, fault t = false) →
      (run strategies tests fault targets threads).1.completed_tests =
        targets.length := by
    intro h
    have := completed_foldl_nofault strategies tests fault targets
      (initState targets) h
    unfold run
    simpa [initState] using this
  refine ⟨by rw [htot]; ring, by rw [htot]; omega, hnof, ?_⟩
  intro hn h
  rw [hnof h, htot]
  unfold print_progress
  rw [if_neg (by omega)]
  have hq : (targets.length : ℚ) ≠ 0 := Nat.cast_ne_zero.mpr (by omega)
  congr 1
  push_cast
  field_simp
  ring

/-- Concrete instantiation of `run_progress_accounting`: a fault-free run
over two targets finishes with 2 of 10 work units completed and a displayed
progress of exactly 20 percent. -/
theorem run_progress_accounting_witness :
    (run [stratSelf] fixtureTests noFault ["t1", "t2"] 5).1.total_tests
      = 10 ∧
    (run [stratSelf] fixtureTests noFault ["t1", "t2"] 5).1.completed_tests
      = 2 ∧
    print_progress
      (run [stratSelf] fixtureTests noFault ["t1", "t2"] 5).1.completed_tests
      (run [stratSelf] fixtureTests noFault ["t1", "t2"] 5).1.total_tests
      = some 20 := by
  have h := run_progress_accounting [stratSelf] fixtureTests noFault
    ["t1", "t2"] 5
  exact ⟨h.1, h.2.2.1 (fun t _ => rfl), h.2.2.2 (by decide) (fun t _ => rfl)⟩

/-- C9 (refuting evaluation): the worker-pool width has no effect on a run.
The source creates `ThreadPoolExecutor(max_workers=self.threads)` (line 163)
but never submits any work to it — each target is processed inline by the
loop in the main thread, sequentially — so the run is one and the same
function of the targets for every thread count. -/
theorem run_threads_irrelevant (strategies : List Strat)
    (tests : List (String × Test)) (fault : String → Bool)
    (targets : List String) (threads1 threads2 : Nat) :
    run strategies tests fault targets threads1 =
      run strategies tests fault targets threads2 := rfl

/-- C2: when an external interrupt escapes the target loop after `k` of the
targets have been processed, `__main__`'s handler invokes report generation
with exactly the findings the aggregator holds at that moment (partial
results are persisted, never discarded); the emission log of every run —
interrupted anywhere or not interrupted at all — holds exactly one report;
and interruption is not a failure exit. -/
theorem interrupt_partial_report (strategies : List Strat)
    (tests : List (String × Test)) (fault : String → Bool)
    (targets : List String) (threads : Nat) (k : Nat)
    (hk : k < targets.length) :
    (mainModel strategies tests fault targets threads (some k)).2.1 =
      [reportDoc ((targets.take k).foldl (runStep strategies tests fault)
        (initState targets)).findings] ∧
    (∀ interruptAfter : Option Nat,
      (mainModel strategies tests fault targets threads
        interruptAfter).2.1.length = 1) ∧
    (mainModel strategies tests fault targets threads (some k)).2.2 =
      false := by
  refine ⟨?_, ?_, ?_⟩
  · simp [mainModel, runModel, hk, generate_report]
  · intro interruptAfter
    cases interruptAfter with
    | none => simp [mainModel, runModel, run, generate_report]
    | some k' =>
      by_cases hk' : k' < targets.length <;>
        simp [mainModel, runModel, hk', run, generate_report]
  · simp [mainModel, runModel, hk]

/-- Concrete instantiation of `interrupt_partial_report`: interrupting a
two-target run after its first target emits exactly one report whose
critical bucket holds the finding recorded for that first target, and the
exit is clean. -/
theorem interrupt_partial_report_witness :
    (mainModel [stratSelf] fixtureTests noFault ["t1", "t2"] 5
        (some 1)).2.1 =
      [reportDoc
        { critical := [⟨"t1", "SQLi", "inj", foreRED⟩], high := [],
          medium := [], low := [], info := [] }] ∧
    (mainModel [stratSelf] fixtureTests noFault ["t1", "t2"] 5
        (some 1)).2.1.length = 1 ∧
    (mainModel [stratSelf] fixtureTests noFault ["t1", "t2"] 5
        (some 1)).2.2 = false := by
  have h := interrupt_partial_report [stratSelf] fixtureTests noFault
    ["t1", "t2"] 5 1 (by decide)
  refine ⟨h.1.trans ?_, h.2.1 (some 1), h.2.2⟩
  decide

end APISentinel
